import Mathlib

/-!
Shallow embedding of the `uint` repository's division engine
(`src/algorithms/div.rs`) and conversion engine (`src/from.rs`).

Machine integers are modelled as `Nat` with explicit truncation:
a `u64` value is a `Nat` below `2 ^ 64`, a `u128` value a `Nat` below
`2 ^ 128`.  Limb buffers are `List Nat`, least-significant limb first.
Where the Rust source relies on two's-complement wraparound (release
semantics), the embedding adds the modulus and reduces, e.g.
`(a + 2 ^ 128 - t) % 2 ^ 128` for `a.wrapping_sub(t)`.
Bitwise-or of disjoint bit ranges (`(hi << 64) | lo` with `lo < 2 ^ 64`)
is written as addition, which is equal on such inputs.
-/

namespace Ruint

/-- The limb base: one limb is a 64-bit word. -/
def b64 : Nat := 2 ^ 64

/-- The double-limb base, for `u128` intermediate arithmetic. -/
def b128 : Nat := 2 ^ 128

/-- Source `adc`: compute `a + x + carry`, returning the low limb and the
new carry. -/
def adc (a x carry : Nat) : Nat × Nat :=
  ((a + x + carry) % b64, (a + x + carry) / b64)

/-- Source `msb`: compute `a - (q * c + borrow)` with `u128` wraparound,
returning the low limb and the new borrow `0_u64.wrapping_sub(ret >> 64)`.
For `u64` inputs `q * c + borrow < 2 ^ 128`, so the wrapping subtraction is
`(a + 2 ^ 128 - (q * c + borrow)) % 2 ^ 128`. -/
def msb (a q c borrow : Nat) : Nat × Nat :=
  let ret := (a + b128 - (q * c + borrow)) % b128
  (ret % b64, (b64 - ret / b64) % b64)

/-- Source `val_2`: `((hi as u128) << 64) | lo`; for `lo < 2 ^ 64` the or
is addition. -/
def val2 (lo hi : Nat) : Nat := hi * b64 + lo

/-- Source `mul_2`: full `64 × 64 → 128` bit product. -/
def mul2 (a x : Nat) : Nat := a * x

/-- Source `divrem_2by1`: compute `<hi, lo> / d` returning quotient and
remainder.  The quotient is cast back to `u64` (`q as u64`), hence `% b64`;
the remainder is below `d < 2 ^ 64` already. -/
def divrem_2by1 (lo hi d : Nat) : Nat × Nat :=
  let n := val2 lo hi
  ((n / d) % b64, n % d)

/-- Source `div_3by2`: estimate the quotient digit
`[n2 n1 n0] / [d1 d0]`.  Arguments are the limbs `n[0] n[1] n[2]` and
`d[0] d[1]` of the source arrays.  The subtraction producing
`neg_remainder` and the decrements of `q` use release (wrapping)
semantics; the debug assertions of the source are dropped. -/
def div_3by2 (n0 n1 n2 d0 d1 : Nat) : Nat :=
  if n2 = d1 then
    let negRem := (val2 0 d0 + b128 - val2 n0 n1) % b128
    if negRem > val2 d0 d1 then b64 - 2 else b64 - 1
  else
    let qr := divrem_2by1 n1 n2 d1
    let q := qr.1
    let r := qr.2
    if mul2 q d0 > val2 n0 r then
      let q1 := (q + b64 - 1) % b64
      let r1 := (r + d1) % b64
      if ¬ r1 < d1 ∧ mul2 q1 d0 > val2 n0 r1 then (q1 + b64 - 1) % b64 else q1
    else q

/-- List read with default 0, matching in-bounds array indexing. -/
def getL (xs : List Nat) (i : Nat) : Nat := xs.getD i 0

/-- Source `divrem_nby1` walks the numerator from most- to
least-significant limb with a `u128` remainder accumulator.  This helper
processes the reversed (most-significant-first) limb list. -/
def nby1Rev (d : Nat) : List Nat → Nat → List Nat × Nat
  | [], r => ([], r)
  | x :: ms, r =>
    let acc := r * b64 + x
    let q := (acc / d) % b64
    let p := nby1Rev d ms (acc % d)
    (q :: p.1, p.2)

/-- Source `divrem_nby1`: schoolbook long division by a single limb.
Returns the quotient limbs (in place of the numerator) and the remainder. -/
def divrem_nby1 (numerator : List Nat) (d : Nat) : List Nat × Nat :=
  let p := nby1Rev d numerator.reverse 0
  (p.1.reverse, p.2)

/-- One write of the normalization left-shift loop (D1):
`num[i] = num[i] << s | num[i-1] >> (64 - s)`, truncated to a limb. -/
def shlStep (s : Nat) (xs : List Nat) (i : Nat) : List Nat :=
  xs.set i ((getL xs i <<< s) % b64 ||| getL xs (i - 1) >>> (64 - s))

/-- The D1 loop `for i in (1..=hi).rev()`, shifting limbs `hi` down to 1. -/
def shlLoop (s : Nat) : Nat → List Nat → List Nat
  | 0, xs => xs
  | i + 1, xs => shlLoop s i (shlStep s xs (i + 1))

/-- D4 multiply-and-subtract: for each divisor limb `di` at offset `idx`,
`num[idx] = msb(num[idx], qhat, di, borrow)`, threading the borrow. -/
def mulSubGo (qhat : Nat) : List Nat → Nat → Nat → List Nat → List Nat × Nat
  | [], _, borrow, num => (num, borrow)
  | di :: rest, idx, borrow, num =>
    let p := msb (getL num idx) qhat di borrow
    mulSubGo qhat rest (idx + 1) p.2 (num.set idx p.1)

/-- D6 add-back: for each divisor limb `di` at offset `idx`,
`num[idx] = adc(num[idx], di, carry)`, threading the carry. -/
def addBackGo : List Nat → Nat → Nat → List Nat → List Nat × Nat
  | [], _, carry, num => (num, carry)
  | di :: rest, idx, carry, num =>
    let p := adc (getL num idx) di carry
    addBackGo rest (idx + 1) p.2 (num.set idx p.1)

/-- One iteration of Knuth's D2-D7 loop at quotient-digit position `j`. -/
def dStep (d num : List Nat) (j : Nat) : List Nat :=
  let n := d.length
  let qhat := div_3by2 (getL num (j + n - 2)) (getL num (j + n - 1))
      (getL num (j + n)) (getL d (n - 2)) (getL d (n - 1))
  let p := mulSubGo qhat d j 0 num
  let num1 := p.1
  let borrow := p.2
  let st :=
    if getL num1 (j + n) < borrow then
      ((addBackGo d j 0 num1).1, (qhat + b64 - 1) % b64)
    else (num1, qhat)
  st.1.set (j + n) st.2

/-- The D2 loop `for j in (0..=m).rev()`. -/
def dLoop (d : List Nat) : Nat → List Nat → List Nat
  | 0, num => dStep d num 0
  | j + 1, num => dLoop d j (dStep d num (j + 1))

/-- One write of the D8 unnormalization loop:
`num[i] = num[i] >> s | num[i+1] << (64 - s)`, truncated to a limb. -/
def shrStep (s : Nat) (xs : List Nat) (i : Nat) : List Nat :=
  xs.set i (getL xs i >>> s ||| (getL xs (i + 1) <<< (64 - s)) % b64)

/-- The D8 loop `for i in 0..count`, ascending from index `i`. -/
def shrLoop (s : Nat) : Nat → Nat → List Nat → List Nat
  | 0, _, xs => xs
  | c + 1, i, xs => shrLoop s c (i + 1) (shrStep s xs i)

/-- Bit length of a `u64` value (binary-search form, so that it reduces
by kernel-supported arithmetic). -/
def bitLen64 (x : Nat) : Nat :=
  let a5 := if x < 2 ^ 32 then 0 else 32
  let x5 := x >>> a5
  let a4 := if x5 < 2 ^ 16 then 0 else 16
  let x4 := x5 >>> a4
  let a3 := if x4 < 2 ^ 8 then 0 else 8
  let x3 := x4 >>> a3
  let a2 := if x3 < 2 ^ 4 then 0 else 4
  let x2 := x3 >>> a2
  let a1 := if x2 < 2 ^ 2 then 0 else 2
  let x1 := x2 >>> a1
  let a0 := if x1 < 2 then 0 else 1
  a5 + a4 + a3 + a2 + a1 + a0 + x1 >>> a0

/-- Source `u64::leading_zeros`. -/
def leadingZeros64 (x : Nat) : Nat := 64 - bitLen64 x

/-- Source `divrem_nbym` (Knuth algorithm D): turns the numerator buffer
into remainder (low `n` limbs) and quotient (high limbs), normalizing the
divisor in place.  Returns the mutated numerator and divisor buffers. -/
def divrem_nbym (numerator divisor : List Nat) : List Nat × List Nat :=
  let n := divisor.length
  let m := numerator.length - n - 1
  let s := leadingZeros64 (getL divisor (n - 1))
  let st :=
    if s > 0 then
      let num1 := numerator.set (n + m) (getL numerator (n + m - 1) >>> (64 - s))
      let num2 := shlLoop s (n + m - 1) num1
      let num3 := num2.set 0 ((getL num2 0 <<< s) % b64)
      let div1 := shlLoop s (n - 1) divisor
      let div2 := div1.set 0 ((getL div1 0 <<< s) % b64)
      (num3, div2)
    else (numerator, divisor)
  let num4 := dLoop st.2 m st.1
  let num5 :=
    if s > 0 then
      let num6 := shrLoop s (n - 1) 0 num4
      num6.set (n - 1) (getL num6 (n - 1) >>> s)
    else num4
  (num5, st.2)

/-- Source `div_rem`: entry point of the division engine.  A zero (or
empty) divisor buffer is a fatal precondition violation: the operation
aborts producing no output, modelled as `none`.  Otherwise the quotient
is left in the numerator buffer and the remainder in the divisor buffer. -/
def div_rem (numerator divisor : List Nat) : Option (List Nat × List Nat) :=
  if divisor.isEmpty then none
  else
    let dTrim := (divisor.reverse.dropWhile (· == 0)).reverse
    if dTrim.isEmpty then none
    else if dTrim.length = 1 then
      let p := divrem_nby1 numerator (getL dTrim 0)
      some (p.1, p.2 :: List.replicate (divisor.length - 1) 0)
    else
      let buffer := numerator ++ [0]
      let buf := (divrem_nbym buffer dTrim).1
      let bufDiv := buf.take dTrim.length
      let bufRem := buf.drop dTrim.length
      let divisorOut := bufDiv ++ List.replicate (divisor.length - dTrim.length) 0
      let numeratorOut :=
        if bufRem.length > numerator.length then bufRem.take numerator.length
        else bufRem ++ List.replicate (numerator.length - bufRem.length) 0
      some (numeratorOut, divisorOut)

/-- Little-endian value of a limb buffer. -/
def limbsVal : List Nat → Nat
  | [] => 0
  | x :: xs => x + b64 * limbsVal xs

/-!
Representation layer.  The `Uint<BITS, LIMBS>` struct itself is not part
of the given sources (only `from.rs` and `div.rs` are); a canonical value
is modelled as a `Nat` below `2 ^ BITS`, from which the limb view is
derived.  The helpers below are modelled from the spec (§3, §4.1):
limb count is `ceil(BITS/64)`; `MASK` masks the most-significant limb to
its valid low bits; `bit_len` is the index of the highest set bit plus
one (or 0); `ZERO = 0` and `MAX = 2 ^ BITS - 1`.
-/

/-- Modelled from the spec: number of limbs, `ceil(BITS / 64)`. -/
def nlimbs (bits : Nat) : Nat := (bits + 63) / 64

/-- Modelled from the spec: the bit mask of the most-significant limb
(all limb bits for a multiple of 64, the low `BITS % 64` bits otherwise,
and zero for the degenerate width 0). -/
def mask (bits : Nat) : Nat :=
  if bits % 64 = 0 then (if bits = 0 then 0 else b64 - 1) else 2 ^ (bits % 64) - 1

/-- Modelled from the spec: bit-length of a value (index of the highest
set bit plus one, or zero for zero). -/
def bitLen (v : Nat) : Nat := Nat.size v

/-- Limb `i` of the canonical value `v`. -/
def limb (v i : Nat) : Nat := v / b64 ^ i % b64

/-!
Conversion engine, from `src/from.rs`.  Error payloads carry the wrapped
fixed-width value (a canonical `Nat`) for inbound errors and the native
bit pattern for outbound errors.  Native integers are represented by
their bit patterns: a signed native of width `W` is the two's-complement
pattern in `[0, 2 ^ W)`.
-/

/-- Source `ToUintError`: inbound conversion errors, carrying `BITS` and
the wrapped value. -/
inductive ToUintError where
  | valueTooLarge (bits wrapped : Nat)
  | valueNegative (bits wrapped : Nat)
  | notANumber (bits : Nat)
deriving DecidableEq, Repr

/-- Source `FromUintError<T>`: outbound conversion error, carrying `BITS`,
the truncated native value and the native maximum. -/
inductive FromUintError (α : Type) where
  | overflow (bits : Nat) (wrapped max : α)
deriving DecidableEq, Repr

/-- Source `TryFrom<u64> for Uint` (the base case of all small unsigned
inbound conversions): fails with `ValueTooLarge` carrying the masked
value when `v` exceeds `MASK` on a zero- or one-limb destination. -/
def tryFromU64 (bits v : Nat) : Except ToUintError Nat :=
  if nlimbs bits ≤ 1 then
    if v > mask bits then
      .error (.valueTooLarge bits (if nlimbs bits = 1 then v &&& mask bits else 0))
    else if nlimbs bits = 0 then .ok 0
    else .ok v
  else .ok v

/-- Source `TryFrom<u128> for Uint`: values fitting a `u64` delegate;
destinations below two limbs wrap through the `u64` case; two-limb
destinations check the high limb against `MASK` (note the source's
`limbs[1] %= Self::MASK` on the error path). -/
def tryFromU128 (bits v : Nat) : Except ToUintError Nat :=
  if v ≤ b64 - 1 then tryFromU64 bits v
  else if nlimbs bits < 2 then
    match tryFromU64 bits (v % b64) with
    | .ok n => .error (.valueTooLarge bits n)
    | .error e => .error e
  else
    let l0 := v % b64
    let l1 := v / b64 % b64
    if nlimbs bits = 2 ∧ l1 > mask bits then
      .error (.valueTooLarge bits (l0 + b64 * (l1 % mask bits)))
    else .ok (l0 + b64 * l1)

/-- Source `impl_from_signed_int` (widths up to 64): a negative value
fails with `ValueNegative` carrying the two's-complement pattern wrapped
through the unsigned path; a non-negative value delegates to it.  `wid`
is the native width, `x` the signed native value. -/
def tryFromInt (wid bits : Nat) (x : Int) : Except ToUintError Nat :=
  let pat : Nat := (x % ((2 : Int) ^ wid)).toNat
  if x < 0 then
    .error (.valueNegative bits
      (match tryFromU64 bits pat with
       | .ok n => n
       | .error (.valueTooLarge _ n) => n
       | .error _ => 0))  -- unreachable!() in the source
  else tryFromU64 bits pat

/-- Source `TryFrom<i128> for Uint`: as `tryFromInt` but through the
`u128` path. -/
def tryFromI128 (bits : Nat) (x : Int) : Except ToUintError Nat :=
  let pat : Nat := (x % ((2 : Int) ^ 128)).toNat
  if x < 0 then
    .error (.valueNegative bits
      (match tryFromU128 bits pat with
       | .ok n => n
       | .error (.valueTooLarge _ n) => n
       | .error _ => 0))  -- unreachable!() in the source
  else tryFromU128 bits pat

/-- Source `Uint::wrapping_from`: the value on success, the carried
wrapped payload on `ValueTooLarge`/`ValueNegative`, zero on
`NotANumber`. -/
def wrappingFrom : Except ToUintError Nat → Nat
  | .ok n => n
  | .error (.valueTooLarge _ n) => n
  | .error (.valueNegative _ n) => n
  | .error (.notANumber _) => 0

/-- Source `Uint::saturating_from`: the value on success, `Uint::MAX` on
`ValueTooLarge`, `Uint::ZERO` on `ValueNegative` or `NotANumber`. -/
def saturatingFrom (bits : Nat) : Except ToUintError Nat → Nat
  | .ok n => n
  | .error (.valueTooLarge _ _) => 2 ^ bits - 1
  | .error (.valueNegative _ _) => 0
  | .error (.notANumber _) => 0

/-- Source `to_int!` macro body: outbound conversion to a sized native
integer of width `wid`, overflow threshold `thr` (the macro's `$bits`
literal) and maximum pattern `maxPat`.  On overflow the error carries
`value.as_limbs()[0] as $int` (the low limb truncated to the native
width) and the native maximum. -/
def tryToSmall (bits wid thr maxPat v : Nat) : Except (FromUintError Nat) Nat :=
  if bits = 0 then .ok 0
  else if bitLen v > thr then
    .error (.overflow bits (v % b64 % 2 ^ wid) maxPat)
  else .ok (v % b64 % 2 ^ wid)

/-- Source `TryFrom<&Uint> for i128`: widths up to 64 bits return the low
limb; otherwise the low two limbs are assembled and checked against 127
significant bits. -/
def tryToI128 (bits v : Nat) : Except (FromUintError Nat) Nat :=
  if bits = 0 then .ok 0
  else if bits ≤ 64 then .ok (v % b64)
  else
    let r := v % b64 + b64 * (v / b64 % b64)
    if bitLen v > 127 then .error (.overflow bits r (2 ^ 127 - 1)) else .ok r

/-- Source `TryFrom<&Uint> for u128`: as `tryToI128` with threshold 128. -/
def tryToU128 (bits v : Nat) : Except (FromUintError Nat) Nat :=
  if bits = 0 then .ok 0
  else if bits ≤ 64 then .ok (v % b64)
  else
    let r := v % b64 + b64 * (v / b64 % b64)
    if bitLen v > 128 then .error (.overflow bits r (2 ^ 128 - 1)) else .ok r

/-- Source `TryFrom<&Uint> for bool`: `Ok(false)` at width zero, overflow
when more than one significant bit (carrying bit 0 and `true`), else
whether the low limb is nonzero. -/
def tryToBool (bits v : Nat) : Except (FromUintError Bool) Bool :=
  if bits = 0 then .ok false
  else if bitLen v > 1 then .error (.overflow bits (v.testBit 0) true)
  else .ok (v % b64 != 0)

/-- The sized native integer targets of the outbound conversions, as
instantiated in the source (`to_int!` for widths up to 64, dedicated
implementations for 128 bits). -/
inductive IntTarget where
  | i8 | u8 | i16 | u16 | i32 | u32 | i64 | u64t | i128 | u128t
deriving DecidableEq, Repr

/-- Native bit width of a target. -/
def IntTarget.width : IntTarget → Nat
  | .i8 => 8 | .u8 => 8 | .i16 => 16 | .u16 => 16
  | .i32 => 32 | .u32 => 32 | .i64 => 64 | .u64t => 64
  | .i128 => 128 | .u128t => 128

/-- Overflow threshold of a target: the `$bits` literal of the `to_int!`
instantiation (width for unsigned, width minus one for signed), and the
literal bounds 127 / 128 of the 128-bit implementations. -/
def IntTarget.thr : IntTarget → Nat
  | .i8 => 7 | .u8 => 8 | .i16 => 15 | .u16 => 16
  | .i32 => 31 | .u32 => 32 | .i64 => 63 | .u64t => 64
  | .i128 => 127 | .u128t => 128

/-- Maximum native value of a target, as a bit pattern. -/
def IntTarget.maxPat : IntTarget → Nat
  | .i8 => 2 ^ 7 - 1 | .u8 => 2 ^ 8 - 1 | .i16 => 2 ^ 15 - 1 | .u16 => 2 ^ 16 - 1
  | .i32 => 2 ^ 31 - 1 | .u32 => 2 ^ 32 - 1 | .i64 => 2 ^ 63 - 1 | .u64t => 2 ^ 64 - 1
  | .i128 => 2 ^ 127 - 1 | .u128t => 2 ^ 128 - 1

/-- Dispatch of the outbound sized-integer conversions over the targets
instantiated in the source. -/
def uintTryTo (t : IntTarget) (bits v : Nat) : Except (FromUintError Nat) Nat :=
  match t with
  | .i128 => tryToI128 bits v
  | .u128t => tryToU128 bits v
  | t => tryToSmall bits t.width t.thr t.maxPat v

/-- Source `Uint::wrapping_to`: the value on success, the carried
truncated payload on `Overflow`. -/
def wrappingTo : Except (FromUintError Nat) Nat → Nat
  | .ok n => n
  | .error (.overflow _ n _) => n

/-- Source `Uint::saturating_to`: the value on success, the native
maximum on `Overflow`. -/
def saturatingTo : Except (FromUintError Nat) Nat → Nat
  | .ok n => n
  | .error (.overflow _ _ m) => m

/-- The spec's wrapping round trip for an unsigned 128-bit native value:
into `Uint<bits>` by `wrapping_from`, back out by `wrapping_to::<u128>`. -/
def roundtripU128 (bits v : Nat) : Nat :=
  wrappingTo (tryToU128 bits (wrappingFrom (tryFromU128 bits v)))

end Ruint

deriving instance DecidableEq for Except

namespace Ruint

/-! Helper lemmas about the representation model. -/

theorem nlimbs_le_one_iff (bits : Nat) : nlimbs bits ≤ 1 ↔ bits ≤ 64 := by
  unfold nlimbs; omega

theorem nlimbs_eq_zero_iff (bits : Nat) : nlimbs bits = 0 ↔ bits = 0 := by
  unfold nlimbs; omega

theorem nlimbs_lt_two_iff (bits : Nat) : nlimbs bits < 2 ↔ bits ≤ 64 := by
  unfold nlimbs; omega

theorem mask_of_le_64 (bits : Nat) (h : bits ≤ 64) : mask bits = 2 ^ bits - 1 := by
  unfold mask
  rcases Nat.lt_or_ge bits 64 with h1 | h1
  · rw [Nat.mod_eq_of_lt h1]
    rcases Nat.eq_zero_or_pos bits with h2 | h2
    · simp [h2]
    · rw [if_neg (by omega)]
  · have h2 : bits = 64 := le_antisymm h h1
    subst h2
    norm_num [b64]

theorem bitLen_le_iff (v n : Nat) : bitLen v ≤ n ↔ v < 2 ^ n := Nat.size_le

theorem lt_bitLen_iff (v n : Nat) : n < bitLen v ↔ 2 ^ n ≤ v := Nat.lt_size

theorem bitLen_gt_iff (v n : Nat) : bitLen v > n ↔ 2 ^ n ≤ v := Nat.lt_size

theorem bitLen_eq_of_bounds (v n : Nat) (h1 : 2 ^ n ≤ v) (h2 : v < 2 ^ (n + 1)) :
    bitLen v = n + 1 :=
  le_antisymm (Nat.size_le.2 h2) (Nat.lt_size.2 h1)

/-- C5: running `divrem_nbym` on numerator limbs `[40, 31, 79, 84, 0]` and
divisor limbs `[53, 12, 12]` leaves the remainder limbs
`[93, 0xfffffffffffffeb8, 6]` in the low positions of the numerator buffer
and the quotient limbs `[0xffffffffffffffff, 6]` in its high positions. -/
theorem c5_divrem_nbym_golden_vector :
    (divrem_nbym [40, 31, 79, 84, 0] [53, 12, 12]).1.take 3 =
        [93, 0xfffffffffffffeb8, 6] ∧
      (divrem_nbym [40, 31, 79, 84, 0] [53, 12, 12]).1.drop 3 =
        [0xffffffffffffffff, 6] := by
  constructor
  · decide
  · decide

/-- C1 (code bug): on numerator limbs `[0, 1, 0, 2^63]` and divisor limbs
`[2, 0, 2^63]` (a nonzero divisor no longer than the numerator),
`div_rem` returns a quotient and remainder with `Q * D + R = N` but with
`R ≥ D`: the remainder bound `0 ≤ R < D` claimed for the division engine
is violated (the true quotient is `2^64 - 1`, the code returns
`2^64 - 2`). -/
theorem c1_div_rem_remainder_exceeds_divisor :
    div_rem [0, 1, 0, 2 ^ 63] [2, 0, 2 ^ 63] =
        some ([2 ^ 64 - 2, 0, 0, 0], [4, 2 ^ 64 - 1, 2 ^ 64 - 1]) ∧
      limbsVal [2 ^ 64 - 2, 0, 0, 0] * limbsVal [2, 0, 2 ^ 63] +
          limbsVal [4, 2 ^ 64 - 1, 2 ^ 64 - 1] =
        limbsVal [0, 1, 0, 2 ^ 63] ∧
      ¬ limbsVal [4, 2 ^ 64 - 1, 2 ^ 64 - 1] < limbsVal [2, 0, 2 ^ 63] := by
  refine ⟨by decide, by decide, by decide⟩

/-- C2 (code bug): converting the `u128` value `3 * 2^64` into a 65-bit
destination fails with `ValueTooLarge` as required, but the carried
wrapped value is `0` (the source reduces the high limb with `%= MASK`),
not the masked value `3 * 2^64 mod 2^65 = 2^64`. -/
theorem c2_tryFromU128_wrapped_payload_not_masked :
    tryFromU128 65 (3 * 2 ^ 64) = .error (.valueTooLarge 65 0) ∧
      3 * 2 ^ 64 % 2 ^ 65 = 2 ^ 64 ∧ (0 : Nat) ≠ 2 ^ 64 := by
  refine ⟨by decide, by decide, by decide⟩

/-- C4 (code bug): the wrapping round trip of the `u128` value
`2^128 - 1` through a 65-bit `Uint` returns `2^64 - 1`, not
`(2^128 - 1) mod 2^65 = 2^65 - 1`: the identity
`wrapping_from(wrapping_to(x)) = x mod 2^BITS` fails for `u128` inputs on
two-limb destinations (same `%= MASK` slip as in the inbound `u128`
conversion). -/
theorem c4_wrapping_roundtrip_fails_on_u128 :
    roundtripU128 65 (2 ^ 128 - 1) = 2 ^ 64 - 1 ∧
      (2 ^ 128 - 1) % 2 ^ 65 = 2 ^ 65 - 1 ∧ (2 ^ 64 - 1 : Nat) ≠ 2 ^ 65 - 1 := by
  refine ⟨?_, by decide, by decide⟩
  have h1 : tryFromU128 65 (2 ^ 128 - 1) =
      .error (.valueTooLarge 65 (2 ^ 64 - 1)) := by decide
  have h2 : bitLen (2 ^ 64 - 1) = 64 := bitLen_eq_of_bounds _ 63 (by norm_num) (by norm_num)
  unfold roundtripU128
  rw [h1]
  show wrappingTo (tryToU128 65 (2 ^ 64 - 1)) = 2 ^ 64 - 1
  unfold tryToU128
  rw [if_neg (by norm_num), if_neg (by norm_num), if_neg (by rw [h2]; norm_num)]
  show (2 ^ 64 - 1) % b64 + b64 * ((2 ^ 64 - 1) / b64 % b64) = 2 ^ 64 - 1
  decide

/-- C9: the division entry point `div_rem` produces no output exactly
when the divisor buffer is empty or all-zero; in the embedding the abort
happens before any buffer is produced, and every nonzero divisor yields a
result. -/
theorem c9_div_rem_zero_divisor_aborts (numerator divisor : List Nat) :
    div_rem numerator divisor = none ↔ ∀ x ∈ divisor, x = 0 := by
  unfold div_rem
  by_cases he : divisor.isEmpty
  · rw [if_pos he]
    rw [List.isEmpty_iff] at he
    subst he
    simp
  · rw [if_neg he]
    have hiff : ((divisor.reverse.dropWhile (· == 0)).reverse).isEmpty = true ↔
        ∀ x ∈ divisor, x = 0 := by
      rw [List.isEmpty_iff, List.reverse_eq_nil_iff, List.dropWhile_eq_nil_iff]
      simp [List.mem_reverse]
    by_cases ht : ((divisor.reverse.dropWhile (· == 0)).reverse).isEmpty
    · rw [if_pos ht]
      simpa using hiff.mp ht
    · rw [if_neg ht]
      have h2 : ¬ ∀ x ∈ divisor, x = 0 := fun h => ht (hiff.mpr h)
      split
      · exact iff_of_false (by simp) h2
      · exact iff_of_false (by simp) h2

/-- C10: at the degenerate width `BITS = 0`, outbound conversion to
`bool` and to every sized native integer target succeeds returning
`false` or `0`, and inbound conversion of any nonzero unsigned native
integer (through either the `u64` base case or the `u128` path) fails
with `ValueTooLarge` carrying the zero value. -/
theorem c10_degenerate_width_conversions :
    tryToBool 0 0 = .ok false ∧
      (∀ t : IntTarget, uintTryTo t 0 0 = .ok 0) ∧
      (∀ v : Nat, v ≠ 0 → tryFromU64 0 v = .error (.valueTooLarge 0 0)) ∧
      (∀ v : Nat, v ≠ 0 → tryFromU128 0 v = .error (.valueTooLarge 0 0)) := by
  have h64 : ∀ v : Nat, v ≠ 0 → tryFromU64 0 v = .error (.valueTooLarge 0 0) := by
    intro v hv
    unfold tryFromU64
    rw [if_pos (show nlimbs 0 ≤ 1 by decide),
      if_pos (show v > mask 0 from show v > 0 by omega),
      if_neg (show ¬ nlimbs 0 = 1 by decide)]
  refine ⟨rfl, ?_, h64, ?_⟩
  · intro t
    cases t <;> rfl
  · intro v hv
    unfold tryFromU128
    by_cases hsmall : v ≤ b64 - 1
    · rw [if_pos hsmall]
      exact h64 v hv
    · rw [if_neg hsmall, if_pos (show nlimbs 0 < 2 by decide)]
      by_cases hlow : v % b64 = 0
      · rw [show tryFromU64 0 (v % b64) = .ok 0 by rw [hlow]; decide]
      · rw [h64 (v % b64) hlow]

/-- Closed witness for the hypotheses of the degenerate-width theorem:
inbound conversion of the nonzero values 1 (`u64`) and `2^64` (`u128`)
into a zero-bit destination fails with `ValueTooLarge` carrying zero. -/
theorem c10_degenerate_width_conversions_witness :
    tryFromU64 0 1 = .error (.valueTooLarge 0 0) ∧
      tryFromU128 0 (2 ^ 64) = .error (.valueTooLarge 0 0) :=
  ⟨c10_degenerate_width_conversions.2.2.1 1 (by decide),
    c10_degenerate_width_conversions.2.2.2 (2 ^ 64) (by norm_num)⟩

/-- C7: `saturating_from` clamps: for a `u64` input it returns the value
when it fits and the type maximum `2^BITS - 1` when the fallible
conversion fails with `ValueTooLarge`; for any negative signed input
(which fails with `ValueNegative`) it returns zero; and on `NotANumber`
it returns zero. -/
theorem c7_saturating_from_clamps :
    (∀ bits v : Nat, v < b64 →
        saturatingFrom bits (tryFromU64 bits v) =
          if v ≤ 2 ^ bits - 1 then v else 2 ^ bits - 1) ∧
      (∀ wid bits : Nat, ∀ x : Int, x < 0 →
        saturatingFrom bits (tryFromInt wid bits x) = 0) ∧
      (∀ bits : Nat, saturatingFrom bits (.error (.notANumber bits)) = 0) := by
  refine ⟨?_, ?_, fun bits => rfl⟩
  · intro bits v hv
    unfold tryFromU64
    by_cases hb : nlimbs bits ≤ 1
    · have hb64 : bits ≤ 64 := (nlimbs_le_one_iff bits).1 hb
      rw [if_pos hb, mask_of_le_64 bits hb64]
      by_cases hgt : v > 2 ^ bits - 1
      · rw [if_pos hgt, if_neg (not_le.2 hgt)]
        rfl
      · rw [if_neg hgt, if_pos (not_lt.1 hgt)]
        by_cases h0 : nlimbs bits = 0
        · have hbz : bits = 0 := (nlimbs_eq_zero_iff bits).1 h0
          subst hbz
          have hvz : v = 0 := by omega
          subst hvz
          rw [if_pos h0]
          rfl
        · rw [if_neg h0]
          rfl
    · have hb64 : 64 < bits := by
        have := (nlimbs_le_one_iff bits).2
        omega
      rw [if_neg hb, if_pos (show v ≤ 2 ^ bits - 1 by
        have h2 : 2 ^ 65 ≤ 2 ^ bits := Nat.pow_le_pow_right (by omega) (by omega)
        have h3 : v < 2 ^ 64 := hv
        have h4 : (2 : Nat) ^ 65 = 2 * 2 ^ 64 := by ring
        omega)]
      rfl
  · intro wid bits x hx
    unfold tryFromInt
    rw [if_pos hx]
    rfl

/-- Closed witness for the saturating-from theorem: converting the
`u64` value 300 into an 8-bit destination saturates to 255, and
converting the negative 16-bit value `-10` saturates to zero. -/
theorem c7_saturating_from_clamps_witness :
    saturatingFrom 8 (tryFromU64 8 300) = 255 ∧
      saturatingFrom 8 (tryFromInt 16 8 (-10)) = 0 := by
  constructor
  · have h := c7_saturating_from_clamps.1 8 300 (by norm_num [b64])
    rw [h, if_neg (by norm_num)]
    norm_num
  · exact c7_saturating_from_clamps.2.1 16 8 (-10) (by norm_num)

/-- C6: under the preconditions of `div_3by2` (limb-sized inputs, the
divisor's top bit set, the top two numerator limbs strictly below the two
divisor limbs), when the numerator window's top limb equals the divisor's
top limb the function returns the maximum limb `2^64 - 1` or exactly one
less, the choice made by comparing the residual
`2^64 * [d1 d0] - [n2 n1 n0]` (left after subtracting the implied
multiple `2^64` of the divisor) against the divisor; moreover the result
is exactly the true quotient digit `[n2 n1 n0] / [d1 d0]`. -/
theorem c6_div_3by2_equal_top_limbs
    (n0 n1 n2 d0 d1 : Nat)
    (hn0 : n0 < b64) (hn1 : n1 < b64) (hn2 : n2 < b64)
    (hd0 : d0 < b64) (hd1 : d1 < b64)
    (hnorm : 2 ^ 63 ≤ d1)
    (hlt : val2 n1 n2 < val2 d0 d1)
    (heq : n2 = d1) :
    (div_3by2 n0 n1 n2 d0 d1 = b64 - 1 ∨ div_3by2 n0 n1 n2 d0 d1 = b64 - 2) ∧
      div_3by2 n0 n1 n2 d0 d1 =
        (if val2 d0 d1 < b64 * val2 d0 d1 - (n2 * b128 + val2 n0 n1) then b64 - 2
          else b64 - 1) ∧
      div_3by2 n0 n1 n2 d0 d1 = (n2 * b128 + val2 n0 n1) / val2 d0 d1 := by
  subst heq
  have e64 : b64 = 2 ^ 64 := rfl
  have e128 : b128 = 2 ^ 128 := rfl
  unfold val2 at hlt ⊢
  rw [e64] at hn0 hn1 hn2 hd0 hlt ⊢
  rw [e128]
  have hn1d0 : n1 < d0 := by omega
  unfold div_3by2
  rw [if_pos rfl]
  unfold val2
  rw [e64, e128]
  have hW : (d0 * 2 ^ 64 + 0 + 2 ^ 128 - (n1 * 2 ^ 64 + n0)) % 2 ^ 128 =
      d0 * 2 ^ 64 - (n1 * 2 ^ 64 + n0) := by
    have h1 : d0 * 2 ^ 64 + 0 + 2 ^ 128 - (n1 * 2 ^ 64 + n0) =
        (d0 * 2 ^ 64 - (n1 * 2 ^ 64 + n0)) + 2 ^ 128 := by omega
    rw [h1, Nat.add_mod_right, Nat.mod_eq_of_lt (by omega)]
  rw [hW]
  have hres : 2 ^ 64 * (n2 * 2 ^ 64 + d0) - (n2 * 2 ^ 128 + (n1 * 2 ^ 64 + n0)) =
      d0 * 2 ^ 64 - (n1 * 2 ^ 64 + n0) := by omega
  rw [hres]
  have hD2pos : 0 < n2 * 2 ^ 64 + d0 := by omega
  rcases Nat.lt_or_ge (n2 * 2 ^ 64 + d0) (d0 * 2 ^ 64 - (n1 * 2 ^ 64 + n0)) with hc | hc
  · rw [if_pos hc]
    refine ⟨Or.inr rfl, rfl, ?_⟩
    have hid : n2 * 2 ^ 128 + (n1 * 2 ^ 64 + n0) =
        (n2 * 2 ^ 64 + d0) * (2 ^ 64 - 2) +
          (2 * (n2 * 2 ^ 64 + d0) - (d0 * 2 ^ 64 - (n1 * 2 ^ 64 + n0))) := by
      omega
    rw [hid, Nat.mul_add_div hD2pos, Nat.div_eq_of_lt (by omega)]
    omega
  · rw [if_neg (not_lt.2 hc)]
    refine ⟨Or.inl rfl, rfl, ?_⟩
    have hid : n2 * 2 ^ 128 + (n1 * 2 ^ 64 + n0) =
        (n2 * 2 ^ 64 + d0) * (2 ^ 64 - 1) +
          ((n2 * 2 ^ 64 + d0) - (d0 * 2 ^ 64 - (n1 * 2 ^ 64 + n0))) := by
      omega
    rw [hid, Nat.mul_add_div hD2pos, Nat.div_eq_of_lt (by omega)]
    omega

/-- Closed witness for the `div_3by2` special-case theorem, at the
source's own test vector: numerator window `[2^64-1, 2^64-2, 2^63]`
against divisor `[2^64-1, 2^63]` yields the maximum limb `2^64 - 1`. -/
theorem c6_div_3by2_equal_top_limbs_witness :
    div_3by2 (2 ^ 64 - 1) (2 ^ 64 - 2) (2 ^ 63) (2 ^ 64 - 1) (2 ^ 63) = 2 ^ 64 - 1 := by
  have h := c6_div_3by2_equal_top_limbs (2 ^ 64 - 1) (2 ^ 64 - 2) (2 ^ 63) (2 ^ 64 - 1)
    (2 ^ 63) (by decide) (by decide) (by decide) (by decide) (by decide) (by decide)
    (by decide) rfl
  rw [h.2.1, if_neg (by decide)]
  rfl

/-- Behaviour of the `to_int!` macro body: for a canonical value it
fails exactly when the bit length exceeds the instantiation's threshold,
carrying the value truncated to the native width, and returns the value
exactly otherwise. -/
theorem tryToSmall_spec (bits wid thr maxp v : Nat) (hw : wid ≤ 64) (ht : thr ≤ wid)
    (hv : v < 2 ^ bits) :
    tryToSmall bits wid thr maxp v =
      if thr < bitLen v then .error (.overflow bits (v % 2 ^ wid) maxp) else .ok v := by
  have e64 : b64 = 2 ^ 64 := rfl
  unfold tryToSmall
  by_cases h0 : bits = 0
  · subst h0
    have hv0 : v = 0 := by omega
    subst hv0
    rw [if_pos rfl, if_neg (by simp [bitLen, Nat.size_zero])]
  · rw [if_neg h0]
    by_cases hb : thr < bitLen v
    · rw [if_pos hb, if_pos hb, e64,
        Nat.mod_mod_of_dvd v (pow_dvd_pow 2 hw)]
    · rw [if_neg hb, if_neg hb]
      have hvs : v < 2 ^ wid :=
        lt_of_lt_of_le (Nat.size_le.1 (not_lt.1 hb)) (Nat.pow_le_pow_right (by omega) ht)
      have hv64 : v < b64 := by
        rw [e64]
        exact lt_of_lt_of_le hvs (Nat.pow_le_pow_right (by omega) hw)
      rw [Nat.mod_eq_of_lt hv64, Nat.mod_eq_of_lt hvs]

/-- C8 (amended): for every canonical value and every sized native
integer target instantiated in the source, the outbound conversion fails
with `Overflow` carrying the truncated native value and the native
maximum exactly when the value's bit length exceeds the target's
threshold (its bit width for unsigned targets, its bit width minus one
for signed targets), and returns the value exactly otherwise. -/
theorem c8_try_to_overflow_iff (t : IntTarget) (bits v : Nat) (hv : v < 2 ^ bits) :
    uintTryTo t bits v =
      if t.thr < bitLen v then
        .error (.overflow bits (v % 2 ^ t.width) t.maxPat)
      else .ok v := by
  have e64 : b64 = 2 ^ 64 := rfl
  have h128 : ∀ thrBig : Nat, 64 ≤ thrBig → thrBig ≤ 128 → ∀ maxBig : Nat,
      (if bits = 0 then Except.ok 0
        else if bits ≤ 64 then Except.ok (v % b64)
        else if bitLen v > thrBig then
          Except.error (FromUintError.overflow bits (v % b64 + b64 * (v / b64 % b64)) maxBig)
        else Except.ok (v % b64 + b64 * (v / b64 % b64))) =
      if thrBig < bitLen v then
        .error (.overflow bits (v % 2 ^ 128) maxBig)
      else .ok v := by
    intro thrBig hth1 hth2 maxBig
    have hr : v % b64 + b64 * (v / b64 % b64) = v % 2 ^ 128 := by
      rw [show (2 : Nat) ^ 128 = b64 * b64 by rw [e64]; norm_num, Nat.mod_mul]
    by_cases h0 : bits = 0
    · subst h0
      have hv0 : v = 0 := by omega
      subst hv0
      rw [if_pos rfl, if_neg (by simp [bitLen, Nat.size_zero])]
    · rw [if_neg h0]
      by_cases hb : bits ≤ 64
      · have hv64 : v < b64 := by
          rw [e64]
          exact lt_of_lt_of_le hv (Nat.pow_le_pow_right (by omega) hb)
        have hbl : bitLen v ≤ 64 := by
          rw [e64] at hv64
          exact Nat.size_le.2 hv64
        rw [if_pos hb, if_neg (show ¬ thrBig < bitLen v by omega), Nat.mod_eq_of_lt hv64]
      · rw [if_neg hb]
        by_cases hc : thrBig < bitLen v
        · rw [if_pos hc, if_pos hc, hr]
        · rw [if_neg hc, if_neg hc, hr,
            Nat.mod_eq_of_lt (lt_of_lt_of_le (Nat.size_le.1 (not_lt.1 hc))
              (Nat.pow_le_pow_right (by omega) hth2))]
  cases t
  case i8 => exact tryToSmall_spec bits 8 7 _ v (by omega) (by omega) hv
  case u8 => exact tryToSmall_spec bits 8 8 _ v (by omega) (by omega) hv
  case i16 => exact tryToSmall_spec bits 16 15 _ v (by omega) (by omega) hv
  case u16 => exact tryToSmall_spec bits 16 16 _ v (by omega) (by omega) hv
  case i32 => exact tryToSmall_spec bits 32 31 _ v (by omega) (by omega) hv
  case u32 => exact tryToSmall_spec bits 32 32 _ v (by omega) (by omega) hv
  case i64 => exact tryToSmall_spec bits 64 63 _ v (by omega) (by omega) hv
  case u64t => exact tryToSmall_spec bits 64 64 _ v (by omega) (by omega) hv
  case i128 => exact h128 127 (by omega) (by omega) (2 ^ 127 - 1)
  case u128t => exact h128 128 (by omega) (by omega) (2 ^ 128 - 1)

/-- C8 (counterexample): the value 128 of an 8-bit `Uint` has bit length
8, not exceeding the 8-bit width of the target `i8`, yet the outbound
conversion to `i8` fails with `Overflow` (carrying the truncated pattern
`-128` and the maximum 127) instead of returning the value: for signed
targets the overflow threshold is the width minus one. -/
theorem c8_signed_width_counterexample :
    bitLen 128 ≤ 8 ∧ IntTarget.width .i8 = 8 ∧
      uintTryTo .i8 8 128 = .error (.overflow 8 128 127) := by
  have hb : bitLen 128 = 8 := bitLen_eq_of_bounds 128 7 (by norm_num) (by norm_num)
  refine ⟨by omega, rfl, ?_⟩
  have h := tryToSmall_spec 8 8 7 127 128 (by omega) (by omega) (by norm_num)
  rw [show uintTryTo .i8 8 128 = tryToSmall 8 8 7 127 128 from rfl, h,
    if_pos (by omega), show 128 % 2 ^ 8 = 128 by norm_num]

/-- Closed witness for the amended outbound-conversion theorem: the value
300 of a 16-bit `Uint` overflows the `u8` target, carrying the truncated
value 44 and the maximum 255. -/
theorem c8_try_to_overflow_iff_witness :
    uintTryTo .u8 16 300 = .error (.overflow 16 44 255) := by
  have h := c8_try_to_overflow_iff .u8 16 300 (by norm_num)
  have hb : bitLen 300 = 9 := bitLen_eq_of_bounds 300 8 (by norm_num) (by norm_num)
  rw [h, if_pos (by rw [show IntTarget.thr .u8 = 8 from rfl, hb]; omega),
    show 300 % 2 ^ IntTarget.width .u8 = 44 from by norm_num [IntTarget.width]]
  rfl

end Ruint
